import Mathlib

/-!
Shallow embedding of `scripts/saved_network_visualize_topology.py` from the
Digital-Twin-for-SDN-Networks repository, together with theorems settling the
frozen claims about it.

Conventions used throughout:
* Python integers are modelled as `Int`; strings as `String`.
* `networkx.Graph` is modelled as a node list plus an edge list, with the
  operations (`add_node`, `add_edge`, `remove_edge`, `has_edge`) mirroring the
  networkx semantics for simple undirected graphs: nodes are deduplicated,
  `add_edge` inserts missing endpoints and ignores an already-present edge,
  `has_edge` is orientation-insensitive.
* Fallible Python code (`int(...)` parsing, subscripting a tuple with a string
  key, file loading) is modelled with `Option`/`Except`.
-/

namespace SDN

/-! ### Node identifiers

The replay engine distinguishes switch nodes (Python `int`) from host nodes
(Python `str`).  Python equality between an `int` and a `str` is `False`,
which the tagged union models by constructor disjointness. -/

inductive Node where
  | sw (id : Int)
  | host (name : String)
deriving DecidableEq

/-! ### Graph model (networkx.Graph) -/

structure Graph where
  nodes : List Node
  edges : List (Node × Node)
deriving DecidableEq

def Graph.empty : Graph := ⟨[], []⟩

/-- `G.add_node(n)`: a no-op when the node is already present. -/
def addNode (g : Graph) (n : Node) : Graph :=
  if n ∈ g.nodes then g else { g with nodes := g.nodes ++ [n] }

/-- `G.has_edge(a, b)`: true for either stored orientation of the edge. -/
def hasEdge (g : Graph) (a b : Node) : Bool :=
  g.edges.any (fun e => decide ((e.1 = a ∧ e.2 = b) ∨ (e.1 = b ∧ e.2 = a)))

/-- `G.add_edge(a, b)`: inserts missing endpoints, then the edge unless it is
already present. -/
def addEdge (g : Graph) (a b : Node) : Graph :=
  let g1 := addNode (addNode g a) b
  if hasEdge g1 a b then g1 else { g1 with edges := g1.edges ++ [(a, b)] }

/-- `G.remove_edge(a, b)`: removes the edge in either orientation; endpoints
stay in the node set. -/
def removeEdge (g : Graph) (a b : Node) : Graph :=
  { g with
    edges := g.edges.filter (fun e => !decide ((e.1 = a ∧ e.2 = b) ∨ (e.1 = b ∧ e.2 = a))) }

/-- Well-formedness maintained by networkx: both endpoints of every edge are
nodes of the graph. -/
def Graph.WF (g : Graph) : Prop := ∀ e ∈ g.edges, e.1 ∈ g.nodes ∧ e.2 ∈ g.nodes

instance (g : Graph) : Decidable (Graph.WF g) := by
  unfold Graph.WF; infer_instance

/-! ### Raw topology data (REST shapes)

A raw link is the JSON object `{src: {dpid, port_no}, dst: {dpid, port_no}}`;
a raw host carries `(mac, attached_switch, attached_port)`.  The program
converts the attachment fields with `int(...)`; we model them already as
integers (the conversion of the numeric strings delivered by the REST API). -/

structure Endpoint where
  dpid : Int
  port_no : Int
deriving DecidableEq

structure RawLink where
  src : Endpoint
  dst : Endpoint
deriving DecidableEq

structure RawHost where
  mac : String
  attached_switch : Int
  attached_port : Int
deriving DecidableEq

/-- `PortRef`: the tuple `(dpid, port_no)` built inside `deduplicate_links`. -/
abbrev PortRef := Int × Int

/-- `SwitchLink`: the canonical tuple `tuple(sorted((src, dst)))`. -/
abbrev SwitchLink := PortRef × PortRef

/-- Strict lexicographic order on `(dpid, port_no)` tuples, as used by
Python's `sorted` on pairs of int pairs. -/
def pairLt (a b : PortRef) : Prop := a.1 < b.1 ∨ (a.1 = b.1 ∧ a.2 < b.2)

instance : DecidableRel pairLt := fun a b => by unfold pairLt; infer_instance

/-- `tuple(sorted((src, dst)))` for the two-element case: swap exactly when
the second tuple compares strictly below the first. -/
def sortPair (a b : PortRef) : SwitchLink := if pairLt b a then (b, a) else (a, b)

/-- The canonical key computed for one raw link inside `deduplicate_links`. -/
def canonLink (l : RawLink) : SwitchLink :=
  sortPair (l.src.dpid, l.src.port_no) (l.dst.dpid, l.dst.port_no)

/-- `set.add`, preserving first-insertion order (the resulting `list(...)` is
order-unspecified in Python; membership and cardinality are what the program
relies on). -/
def addUnique (s : List SwitchLink) (x : SwitchLink) : List SwitchLink :=
  if x ∈ s then s else s ++ [x]

/-- `deduplicate_links`: canonicalize every raw link and collect the set. -/
def deduplicate_links (links : List RawLink) : List SwitchLink :=
  links.foldl (fun s l => addUnique s (canonLink l)) []

/-! ### Host attachment mapping -/

/-- Output record shape of `initialize_host_mapping` / `filter_host_links`:
`{host_name, host_mac, switch_dpid, port_no}`. -/
structure HostLink where
  host_name : String
  host_mac : String
  switch_dpid : Int
  port_no : Int
deriving DecidableEq

/-- Membership in the `switch_ports` dictionary-of-sets: `(s, p)` is recorded
iff some raw link endpoint has dpid `s` and port `p` (the code adds
`src_port` under `src_dpid` and `dst_port` under `dst_dpid` for every link;
a key with an empty port set behaves like an absent key). -/
def portUsed (links : List RawLink) (s p : Int) : Bool :=
  links.any (fun l =>
    decide ((l.src.dpid = s ∧ l.src.port_no = p) ∨ (l.dst.dpid = s ∧ l.dst.port_no = p)))

/-- Sort key `(int(h["attached_switch"]), int(h["attached_port"]))`. -/
def hostKey (h : RawHost) : Int × Int := (h.attached_switch, h.attached_port)

/-- Non-strict lexicographic order on hosts by `hostKey`. -/
def hostLe (a b : RawHost) : Prop :=
  a.attached_switch < b.attached_switch ∨
    (a.attached_switch = b.attached_switch ∧ a.attached_port ≤ b.attached_port)

/-- Strict lexicographic order on hosts by `hostKey`. -/
def hostLt (a b : RawHost) : Prop :=
  a.attached_switch < b.attached_switch ∨
    (a.attached_switch = b.attached_switch ∧ a.attached_port < b.attached_port)

instance : DecidableRel hostLe := fun a b => by unfold hostLe; infer_instance

instance : DecidableRel hostLt := fun a b => by unfold hostLt; infer_instance

instance : IsTotal RawHost hostLe := ⟨fun a b => by unfold hostLe; omega⟩

instance : IsTrans RawHost hostLe := ⟨fun a b c => by unfold hostLe; omega⟩

instance : IsAntisymm RawHost hostLt := ⟨fun a b h1 h2 => by
  unfold hostLt at h1 h2; omega⟩

/-- `sorted(hosts, key=lambda h: (int(h["attached_switch"]), int(h["attached_port"])))`.
Python's `sorted` is a stable sort; `List.insertionSort` with a non-strict
total key order is stable as well, hence computes the same list. -/
def sortHosts (hosts : List RawHost) : List RawHost := List.insertionSort hostLe hosts

/-- The naming loop of `initialize_host_mapping`: walk the sorted hosts with
the counter, skip hosts whose attachment port is a switch-to-switch port, and
record `h{counter}` otherwise. -/
def assignHosts (links : List RawLink) : Nat → List RawHost → List HostLink
  | _, [] => []
  | counter, h :: rest =>
    if portUsed links h.attached_switch h.attached_port then
      assignHosts links counter rest
    else
      { host_name := "h" ++ toString counter
        host_mac := h.mac
        switch_dpid := h.attached_switch
        port_no := h.attached_port } :: assignHosts links (counter + 1) rest

/-- `initialize_host_mapping(links, hosts)` (typed view: all links are raw
dict-shaped links, the shape it receives in real-time mode). -/
def initialize_host_mapping (links : List RawLink) (hosts : List RawHost) : List HostLink :=
  assignHosts links 1 (sortHosts hosts)

/-- The naming loop of `filter_host_links`, whose guard is the (negated)
membership test `switch_id not in switch_ports or port_no not in
switch_ports[switch_id]`. -/
def filterAssignHosts (links : List RawLink) : Nat → List RawHost → List HostLink
  | _, [] => []
  | counter, h :: rest =>
    if !portUsed links h.attached_switch h.attached_port then
      { host_name := "h" ++ toString counter
        host_mac := h.mac
        switch_dpid := h.attached_switch
        port_no := h.attached_port } :: filterAssignHosts links (counter + 1) rest
    else
      filterAssignHosts links counter rest

/-- `filter_host_links(links, hosts)`. -/
def filter_host_links (links : List RawLink) (hosts : List RawHost) : List HostLink :=
  filterAssignHosts links 1 (sortHosts hosts)

example :
    initialize_host_mapping [] [⟨"m2", 2, 3⟩, ⟨"m1", 1, 3⟩] =
      [⟨"h1", "m1", 1, 3⟩, ⟨"h2", "m2", 2, 3⟩] := by decide

example :
    deduplicate_links [⟨⟨1, 1⟩, ⟨2, 1⟩⟩, ⟨⟨2, 1⟩, ⟨1, 1⟩⟩] = [((1, 1), (2, 1))] := by
  decide

/-! ### Dynamic view of the link argument of `initialize_host_mapping`

`initialize_host_mapping` subscripts each element of its `links` argument
with the string keys `"src"`/`"dst"`.  In real-time mode the elements are the
raw dict-shaped links, but in snapshot mode the program passes the output of
`deduplicate_links`, whose elements are tuples; subscripting a tuple with a
string raises `TypeError: tuple indices must be integers`.  The dynamic value
an element can take is modelled by this sum. -/

inductive FetchedLink where
  | rawDict (src dst : Endpoint)
  | canonTuple (l : SwitchLink)
deriving DecidableEq

/-- `link["src"]` / `link["dst"]` on a dynamic link value: succeeds only on
the dict shape. -/
def asRawLink : FetchedLink → Except String RawLink
  | .rawDict s d => .ok ⟨s, d⟩
  | .canonTuple _ => .error "TypeError: tuple indices must be integers or slices, not str"

/-- Subscript every dynamic link in order, propagating the first raised
`TypeError` (the `switch_ports` loop touches every link before any host is
processed). -/
def collectRawLinks : List FetchedLink → Except String (List RawLink)
  | [] => .ok []
  | x :: xs =>
    match asRawLink x with
    | .error e => .error e
    | .ok y => (collectRawLinks xs).map (fun ys => y :: ys)

/-- `initialize_host_mapping` on dynamically-typed links: raises at the first
non-dict link and otherwise proceeds as the typed function. -/
def initialize_host_mapping_dyn (links : List FetchedLink) (hosts : List RawHost) :
    Except String (List HostLink) :=
  (collectRawLinks links).map (fun rls => initialize_host_mapping rls hosts)

/-- The snapshot-capture path of `__main__` when `initial_host_mapping` is
`None`: `initialize_host_mapping(deduplicate_links(links), hosts)` — the
deduplicated (tuple-shaped) links are passed where dict-shaped links are
expected. -/
def snapshotModeHostMapping (links : List RawLink) (hosts : List RawHost) :
    Except String (List HostLink) :=
  initialize_host_mapping_dyn ((deduplicate_links links).map FetchedLink.canonTuple) hosts

/-! ### Python/JSON value model for the Snapshot Store

`save_snapshot` serializes `{"switches": ..., "links": ..., "host_links": ...}`
with `json.dump`; `load_snapshot` reads it back with `json.load`.  We model
Python values that can reach this boundary with a mutual inductive (so that
all recursions stay structural), and the `json.dump`/`json.load` round trip
as the documented conversion: tuples encode as JSON arrays and therefore
decode as lists; ints, strings, lists, string-keyed dicts and `None` are
preserved. -/

mutual
inductive PyVal where
  | int (n : Int)
  | str (s : String)
  | noneV
  | list (xs : PyList)
  | tuple (xs : PyList)
  | dict (xs : PyDict)

inductive PyList where
  | nil
  | cons (hd : PyVal) (tl : PyList)

inductive PyDict where
  | nil
  | cons (key : String) (val : PyVal) (tl : PyDict)
end

mutual
/-- What `json.load` yields from the file `json.dump` wrote for a value:
tuples become lists, everything else keeps its shape with elements converted
recursively. -/
def jsonRoundTrip : PyVal → PyVal
  | .int n => .int n
  | .str s => .str s
  | .noneV => .noneV
  | .list xs => .list (jsonRoundTripL xs)
  | .tuple xs => .list (jsonRoundTripL xs)
  | .dict xs => .dict (jsonRoundTripD xs)

def jsonRoundTripL : PyList → PyList
  | .nil => .nil
  | .cons x xs => .cons (jsonRoundTrip x) (jsonRoundTripL xs)

def jsonRoundTripD : PyDict → PyDict
  | .nil => .nil
  | .cons k v xs => .cons k (jsonRoundTrip v) (jsonRoundTripD xs)
end

mutual
/-- Structural equality of Python values: same shape and content, where a
tuple and a list holding the same elements count as structurally equal
(`json.load` returns sequences as lists). -/
def structEq : PyVal → PyVal → Bool
  | .int a, .int b => a == b
  | .str a, .str b => a == b
  | .noneV, .noneV => true
  | .list xs, .list ys => structEqL xs ys
  | .list xs, .tuple ys => structEqL xs ys
  | .tuple xs, .list ys => structEqL xs ys
  | .tuple xs, .tuple ys => structEqL xs ys
  | .dict xs, .dict ys => structEqD xs ys
  | _, _ => false

def structEqL : PyList → PyList → Bool
  | .nil, .nil => true
  | .cons x xs, .cons y ys => structEq x y && structEqL xs ys
  | _, _ => false

def structEqD : PyDict → PyDict → Bool
  | .nil, .nil => true
  | .cons k v xs, .cons k' v' ys => k == k' && structEq v v' && structEqD xs ys
  | _, _ => false
end

/-- `snapshot[key]` guarded by the surrounding `try`: subscripting a non-dict
or a dict without the key is a caught exception, modelled as `none`. -/
def dictGet : PyVal → String → Option PyVal
  | .dict xs, k => lookupD xs k
  | _, _ => none
where
  lookupD : PyDict → String → Option PyVal
    | .nil, _ => none
    | .cons k' v tl, k => if k' = k then some v else lookupD tl k

/-- The file content produced by `save_snapshot(switches, links, host_links)`
as `json.load` will see it. -/
def save_snapshot (switches links host_links : PyVal) : PyVal :=
  jsonRoundTrip
    (.dict (.cons "switches" switches
      (.cons "links" links
        (.cons "host_links" host_links .nil))))

/-- `load_snapshot()`: the file argument is `none` when the file is missing
or its content is not parseable JSON (the raised exception is caught).  Any
failure — including a missing top-level field — yields `([], [], [])`. -/
def load_snapshot (file : Option PyVal) : PyVal × PyVal × PyVal :=
  match file with
  | none => (.list .nil, .list .nil, .list .nil)
  | some snapshot =>
    match dictGet snapshot "switches", dictGet snapshot "links",
        dictGet snapshot "host_links" with
    | some s, some l, some h => (s, l, h)
    | _, _, _ => (.list .nil, .list .nil, .list .nil)

/-- Python truthiness test `not switches` used by the caller of
`load_snapshot` to detect "no snapshot available". -/
def pyFalsy : PyVal → Bool
  | .int n => n == 0
  | .str s => s == ""
  | .noneV => true
  | .list .nil => true
  | .list _ => false
  | .tuple .nil => true
  | .tuple _ => false
  | .dict .nil => true
  | .dict _ => false

/-! ### Endpoint token parsing

`add_link`/`remove_link` classify each endpoint token: a token starting with
`"h"` is a host name; any other token goes through `int(...)`, whose
`ValueError` is caught (reported as invalid input, no mutation).  `int(...)`
accepts an optionally signed decimal numeral with surrounding whitespace. -/

def digitsVal (cs : List Char) : Option Nat :=
  if cs.isEmpty then none
  else if cs.all Char.isDigit then
    some (cs.foldl (fun a c => a * 10 + (c.toNat - 48)) 0)
  else none

def trimChars (cs : List Char) : List Char :=
  ((cs.dropWhile Char.isWhitespace).reverse.dropWhile Char.isWhitespace).reverse

/-- `int(s)`, returning `none` where Python raises `ValueError`. -/
def parsePyInt (s : String) : Option Int :=
  match trimChars s.data with
  | '-' :: rest => (digitsVal rest).map (fun n => -(n : Int))
  | '+' :: rest => (digitsVal rest).map (fun n => (n : Int))
  | cs => (digitsVal cs).map (fun n => (n : Int))

/-- Token classification: `source.startswith("h")` makes a host, otherwise
`int(source)` makes a switch id. -/
def parseToken (s : String) : Option Node :=
  match s.data with
  | 'h' :: _ => some (.host s)
  | _ => (parsePyInt s).map .sw

/-! ### Replay-state collections

After `load_snapshot`, the tracked switch-link records are two-element pairs
`((dpid, port), (dpid, port))`; `add_link` later appends records of the form
`((src, port_no), (dst, None))`, so the port slot is optional.  The tracked
host-link records are dicts `{host_name, host_mac, switch_dpid, port_no}`;
the record `add_link` appends carries no `host_mac` key, so that field is
optional. -/

abbrev LinkRec := (Int × Option Int) × (Int × Option Int)

structure HostRec where
  host_name : String
  host_mac : Option String
  switch_dpid : Int
  port_no : Int
deriving DecidableEq

/-- Python's `{a, b} == {c, d}` on integer ids. -/
def idSetEqB (a b c d : Int) : Bool :=
  decide ((a = c ∧ b = d) ∨ (a = d ∧ b = c))

/-- The match predicate of the `initial_switch_links` lookup in `add_link`:
`{link[0][0], link[1][0]} == {src, dst}`. -/
def switchMatch (l : SwitchLink) (s d : Int) : Bool := idSetEqB l.1.1 l.2.1 s d

/-- Python `==` between a dynamic endpoint value and a string field: an
`int` never equals a `str`. -/
def pyEqStr : Node → String → Bool
  | .host h, s => h == s
  | .sw _, _ => false

/-- Python `==` between a dynamic endpoint value and an integer field. -/
def pyEqInt : Node → Int → Bool
  | .sw n, i => n == i
  | .host _, _ => false

/-- The match predicate of the host-link lookups in `add_link`/`remove_link`:
`(rec["host_name"] == src and rec["switch_dpid"] == dst) or
 (rec["host_name"] == dst and rec["switch_dpid"] == src)`. -/
def hostMatch (hl : HostRec) (a b : Node) : Bool :=
  (pyEqStr a hl.host_name && pyEqInt b hl.switch_dpid) ||
    (pyEqStr b hl.host_name && pyEqInt a hl.switch_dpid)

/-! ### Graph rebuild (`visualize_topology`)

Ignoring the matplotlib drawing calls, `visualize_topology` clears `G` and
repopulates it from the three collections, so the graph it leaves behind is a
pure function of `(switches, links, host_links)`.  Its final loop re-adds
isolated host nodes that are already present, a no-op on the node set. -/

def addNodes (g : Graph) (ns : List Node) : Graph := ns.foldl addNode g

def addEdges (g : Graph) (es : List (Node × Node)) : Graph :=
  es.foldl (fun g e => addEdge g e.1 e.2) g

/-- The graph edge induced by a tracked switch-link record:
`(link[0][0], link[1][0])`. -/
def linkNodePair (l : LinkRec) : Node × Node := (.sw l.1.1, .sw l.2.1)

/-- The graph edge induced by a tracked host-link record:
`(rec["switch_dpid"], rec["host_name"])`. -/
def hostNodePair (h : HostRec) : Node × Node := (.sw h.switch_dpid, .host h.host_name)

/-- The host loop of `visualize_topology`: `G.add_node(host)` then
`G.add_edge(switch, host)` for every tracked host-link record. -/
def addHostLinks (g : Graph) (host_links : List HostRec) : Graph :=
  host_links.foldl
    (fun g hl => addEdge (addNode g (.host hl.host_name)) (.sw hl.switch_dpid)
      (.host hl.host_name)) g

def rebuildGraph (switches : List Int) (links : List LinkRec)
    (host_links : List HostRec) : Graph :=
  addHostLinks (addEdges (addNodes Graph.empty (switches.map Node.sw))
    (links.map linkNodePair)) host_links

/-! ### `add_link` / `remove_link` -/

inductive LinkResult where
  | added
  | removed
  | notConnected
  | noEdge
  | invalidInput
deriving DecidableEq

structure StepOut where
  G : Graph
  links : List LinkRec
  host_links : List HostRec
  result : LinkResult
deriving DecidableEq

/-- The validity search of `add_link`: switch/switch pairs search
`initial_switch_links` (taking the port recorded on the `src` side of the
matching fact), anything involving a host searches `host_links_snapshot`
(taking the fact's `port_no`).  Returns the reconstructed `port_no` when a
matching ground-truth fact exists. -/
def findValid (isl : List SwitchLink) (hsnap : List HostRec) (a b : Node) : Option Int :=
  match a, b with
  | .sw s, .sw d =>
    (isl.find? (fun l => switchMatch l s d)).map
      (fun l => if l.1.1 = s then l.1.2 else l.2.2)
  | _, _ => (hsnap.find? (fun hl => hostMatch hl a b)).map (·.port_no)

/-- Presence of the parsed edge in the ground-truth facts, exactly as
`add_link` tests it (`is_valid_link`). -/
def factsHaveEdge (isl : List SwitchLink) (hsnap : List HostRec) (a b : Node) : Bool :=
  match a, b with
  | .sw s, .sw d => isl.any (fun l => switchMatch l s d)
  | _, _ => hsnap.any (fun hl => hostMatch hl a b)

/-- `"host_name": src if isinstance(src, str) else dst`.  The double-host
fallback `""` is unreachable from the valid branch, which `hostMatch` rules
out for two host endpoints. -/
def pyHostNameChoice (a b : Node) : String :=
  match a with
  | .host h => h
  | .sw _ => match b with
    | .host h => h
    | .sw _ => ""

/-- `"switch_dpid": dst if isinstance(dst, int) else src`.  The double-host
fallback `0` is likewise unreachable from the valid branch. -/
def pySwitchChoice (a b : Node) : Int :=
  match b with
  | .sw d => d
  | .host _ => match a with
    | .sw s => s
    | .host _ => 0

/-- `add_link` after endpoint parsing.  On a valid edge the source calls
`G.add_edge` and then `visualize_topology`, which clears and rebuilds `G`
from the updated collections; the returned graph is therefore the rebuild.
On an invalid edge it only prints the rejection. -/
def add_link_parsed (G : Graph) (a b : Node) (switches : List Int)
    (links : List LinkRec) (host_links : List HostRec)
    (isl : List SwitchLink) (hsnap : List HostRec) : StepOut :=
  match findValid isl hsnap a b with
  | some p =>
    match a, b with
    | .sw s, .sw d =>
      let links' := links ++ [((s, some p), (d, none))]
      ⟨rebuildGraph switches links' host_links, links', host_links, .added⟩
    | _, _ =>
      let host_links' := host_links ++
        [{ host_name := pyHostNameChoice a b
           host_mac := none
           switch_dpid := pySwitchChoice a b
           port_no := p }]
      ⟨rebuildGraph switches links host_links', links, host_links', .added⟩
  | none => ⟨G, links, host_links, .notConnected⟩

/-- `add_link(G, source, destination, switches, links, host_links,
host_links_snapshot)`, with the global `initial_switch_links` passed
explicitly.  A `ValueError` from `int(...)` is caught before any mutation. -/
def add_link (G : Graph) (source destination : String) (switches : List Int)
    (links : List LinkRec) (host_links : List HostRec)
    (isl : List SwitchLink) (hsnap : List HostRec) : StepOut :=
  match parseToken source, parseToken destination with
  | some a, some b => add_link_parsed G a b switches links host_links isl hsnap
  | _, _ => ⟨G, links, host_links, .invalidInput⟩

/-- `remove_link` after endpoint parsing.  When the edge exists, the source
removes it, rewrites the matching tracked collection, re-adds host nodes
listed in `all_hosts`, and calls `visualize_topology`, which clears and
rebuilds `G` from the collections (discarding the re-added nodes); the
returned graph is therefore the rebuild. -/
def remove_link_parsed (G : Graph) (a b : Node) (switches : List Int)
    (links : List LinkRec) (host_links : List HostRec)
    (all_hosts : List String) : StepOut :=
  if hasEdge G a b then
    match a, b with
    | .sw s, .sw d =>
      let links' := links.filter (fun l => !idSetEqB l.1.1 l.2.1 s d)
      ⟨rebuildGraph switches links' host_links, links', host_links, .removed⟩
    | _, _ =>
      let host_links' := host_links.filter (fun hl => !hostMatch hl a b)
      ⟨rebuildGraph switches links host_links', links, host_links', .removed⟩
  else ⟨G, links, host_links, .noEdge⟩

/-- `remove_link(G, source, destination, switches, links, host_links,
all_hosts)`. -/
def remove_link (G : Graph) (source destination : String) (switches : List Int)
    (links : List LinkRec) (host_links : List HostRec)
    (all_hosts : List String) : StepOut :=
  match parseToken source, parseToken destination with
  | some a, some b => remove_link_parsed G a b switches links host_links all_hosts
  | _, _ => ⟨G, links, host_links, .invalidInput⟩

/-! ### `pingall` -/

/-- Lexicographic code-point comparison of strings, Python's `<` on `str`. -/
def charListLt : List Char → List Char → Bool
  | [], [] => false
  | [], _ :: _ => true
  | _ :: _, [] => false
  | a :: as, b :: bs =>
    decide (a.toNat < b.toNat) || (decide (a = b) && charListLt as bs)

/-- Non-strict string order used to model `sorted(all_hosts)`. -/
def strLe (a b : String) : Prop := charListLt b.data a.data = false

instance : DecidableRel strLe := fun a b => by unfold strLe; infer_instance

/-- `G.has_node(n)`. -/
def hasNodeB (g : Graph) (n : Node) : Bool := decide (n ∈ g.nodes)

/-- One-step adjacency in the graph (an edge in either orientation). -/
def adjB (g : Graph) (a b : Node) : Bool :=
  g.edges.any (fun e => decide ((e.1 = a ∧ e.2 = b) ∨ (e.1 = b ∧ e.2 = a)))

/-- One-step adjacency as a relation. -/
def adjR (g : Graph) (a b : Node) : Prop := adjB g a b = true

/-- One saturation step of the reachability computation: add every graph
node adjacent to the current set. -/
def stepR (g : Graph) (S : List Node) : List Node :=
  S ++ g.nodes.dedup.filter (fun n => decide (n ∉ S) && S.any (fun m => adjB g m n))

/-- All nodes reachable from `s`: saturate for `|nodes|` rounds, enough to
reach the fixpoint. -/
def reachSet (g : Graph) (s : Node) : List Node :=
  (stepR g)^[g.nodes.dedup.length] [s]

/-- `nx.has_path(G, s, t)`: decides undirected reachability.  `pingall` only
calls it with both endpoints present in the graph. -/
def nxHasPath (g : Graph) (s t : Node) : Bool := decide (t ∈ reachSet g s)

/-- The success test for one ordered host pair inside `pingall`:
`G.has_node(src) and G.has_node(dst) and nx.has_path(G, src, dst)`. -/
def pingGuard (g : Graph) (s d : String) : Bool :=
  hasNodeB g (.host s) && hasNodeB g (.host d) && nxHasPath g (.host s) (.host d)

structure PingResult where
  success : Nat
  total : Nat
  loss : ℚ
  perHost : List (String × List String)
deriving DecidableEq

/-- `pingall(G, all_hosts)`: for every ordered pair of distinct hosts (over
`sorted(all_hosts)`), count the pairs passing `pingGuard`; the reported
packet loss is `100 - successful/total*100` when `total > 0` and `0`
otherwise.  Python computes the percentage in floating point; the division
is modelled exactly, in `ℚ`. -/
def pingall (g : Graph) (all_hosts : List String) : PingResult :=
  let hosts := List.insertionSort strLe all_hosts
  let total := hosts.length * (hosts.length - 1)
  let perHost := hosts.map
    (fun s => (s, hosts.filter (fun d => decide (s ≠ d) && pingGuard g s d)))
  let success : Nat := (perHost.map (fun p => p.2.length)).sum
  let loss : ℚ :=
    if total > 0 then 100 - ((success : ℚ) / (total : ℚ)) * 100 else 0
  ⟨success, total, loss, perHost⟩

/-- Claim-side path existence: both endpoints are nodes of the graph and are
connected by a (possibly empty) chain of edges. -/
def PathEx (g : Graph) (a b : Node) : Prop :=
  a ∈ g.nodes ∧ b ∈ g.nodes ∧ Relation.ReflTransGen (adjR g) a b

/-! ## Lemmas and claim theorems -/

/-! ### Link canonicalization (C5) -/

/-- A raw link with its `src` and `dst` endpoints exchanged. -/
def swapLink (l : RawLink) : RawLink := ⟨l.dst, l.src⟩

theorem sortPair_comm (a b : PortRef) : sortPair a b = sortPair b a := by
  rcases a with ⟨a1, a2⟩
  rcases b with ⟨b1, b2⟩
  unfold sortPair pairLt
  split_ifs with h1 h2 h2
  · exfalso; omega
  · rfl
  · rfl
  · simp only [Prod.mk.injEq]
    refine ⟨⟨?_, ?_⟩, ?_, ?_⟩ <;> omega

theorem canonLink_swap (l : RawLink) : canonLink (swapLink l) = canonLink l := by
  unfold canonLink swapLink
  exact sortPair_comm _ _

/-- C5: for every raw link list, exchanging the `src`/`dst` endpoints of any
one raw link leaves the canonical output of `deduplicate_links` unchanged;
and the two-element list reporting the same connection in opposite
directions canonicalizes to exactly the single `SwitchLink`
`((1, 1), (2, 1))` between switch 1 port 1 and switch 2 port 1. -/
theorem dedup_swap_invariant_and_pair_example :
    (∀ (pre post : List RawLink) (l : RawLink),
      deduplicate_links (pre ++ swapLink l :: post) =
        deduplicate_links (pre ++ l :: post)) ∧
    deduplicate_links [⟨⟨1, 1⟩, ⟨2, 1⟩⟩, ⟨⟨2, 1⟩, ⟨1, 1⟩⟩] = [((1, 1), (2, 1))] := by
  constructor
  · intro pre post l
    unfold deduplicate_links
    rw [List.foldl_append, List.foldl_append, List.foldl_cons, List.foldl_cons,
      canonLink_swap]
  · decide

/-! ### The snapshot-mode host-mapping call (C2) -/

theorem addUnique_ne_nil (s : List SwitchLink) (x : SwitchLink) :
    addUnique s x ≠ [] := by
  unfold addUnique
  split_ifs with h
  · intro hs
    rw [hs] at h
    exact absurd h (List.not_mem_nil x)
  · simp

theorem dedup_foldl_ne_nil (links : List RawLink) (acc : List SwitchLink)
    (h : acc ≠ []) :
    links.foldl (fun s l => addUnique s (canonLink l)) acc ≠ [] := by
  induction links generalizing acc with
  | nil => exact h
  | cons x xs ih => exact ih _ (addUnique_ne_nil _ _)

theorem deduplicate_links_ne_nil (links : List RawLink) (h : links ≠ []) :
    deduplicate_links links ≠ [] := by
  rcases links with _ | ⟨x, xs⟩
  · exact absurd rfl h
  · unfold deduplicate_links
    rw [List.foldl_cons]
    exact dedup_foldl_ne_nil xs _ (addUnique_ne_nil _ _)

/-- C2: in snapshot mode with no ground-truth host mapping captured yet, the
program calls `initialize_host_mapping` on the output of
`deduplicate_links`; since that output consists of tuples while
`initialize_host_mapping` subscripts each link with string keys, the call
raises a `TypeError` for every non-empty fetched link list instead of
producing a host mapping. -/
theorem snapshot_mode_mapping_raises (links : List RawLink) (hosts : List RawHost)
    (h : links ≠ []) :
    snapshotModeHostMapping links hosts =
      .error "TypeError: tuple indices must be integers or slices, not str" := by
  unfold snapshotModeHostMapping initialize_host_mapping_dyn
  rcases hd : deduplicate_links links with _ | ⟨x, xs⟩
  · exact absurd hd (deduplicate_links_ne_nil links h)
  · simp [collectRawLinks, asRawLink, Except.map]

/-- C2 witness: the concrete single raw link between switch 1 and switch 2. -/
theorem snapshot_mode_mapping_raises_witness :
    ([(⟨⟨1, 1⟩, ⟨2, 1⟩⟩ : RawLink)] ≠ []) ∧
      snapshotModeHostMapping [⟨⟨1, 1⟩, ⟨2, 1⟩⟩] [] =
        .error "TypeError: tuple indices must be integers or slices, not str" :=
  ⟨by decide, snapshot_mode_mapping_raises [⟨⟨1, 1⟩, ⟨2, 1⟩⟩] [] (by decide)⟩

/-! ### Snapshot round trip (C3) -/

mutual
/-- After the `json.dump`/`json.load` round trip a value is structurally
equal to the original. -/
def jsonRoundTrip_structEq : (v : PyVal) → structEq (jsonRoundTrip v) v = true
  | .int n => by simp [jsonRoundTrip, structEq]
  | .str s => by simp [jsonRoundTrip, structEq]
  | .noneV => by simp [jsonRoundTrip, structEq]
  | .list xs => by
    simp only [jsonRoundTrip, structEq]
    exact jsonRoundTripL_structEqL xs
  | .tuple xs => by
    simp only [jsonRoundTrip, structEq]
    exact jsonRoundTripL_structEqL xs
  | .dict xs => by
    simp only [jsonRoundTrip, structEq]
    exact jsonRoundTripD_structEqD xs

def jsonRoundTripL_structEqL : (xs : PyList) → structEqL (jsonRoundTripL xs) xs = true
  | .nil => by simp [jsonRoundTripL, structEqL]
  | .cons x xs => by
    simp only [jsonRoundTripL, structEqL, Bool.and_eq_true]
    exact ⟨jsonRoundTrip_structEq x, jsonRoundTripL_structEqL xs⟩

def jsonRoundTripD_structEqD : (xs : PyDict) → structEqD (jsonRoundTripD xs) xs = true
  | .nil => by simp [jsonRoundTripD, structEqD]
  | .cons k v xs => by
    simp only [jsonRoundTripD, structEqD, Bool.and_eq_true]
    exact ⟨⟨by simp, jsonRoundTrip_structEq v⟩, jsonRoundTripD_structEqD xs⟩
end

/-- C3: loading a snapshot immediately after saving it returns a triple of
collections structurally equal to the saved `(switches, links, host_links)`
(structural equality is shape-and-content equality; `json.load` returns
every saved sequence, tuple or list, as a list). -/
theorem snapshot_round_trip (S L H : PyVal) :
    structEq (load_snapshot (some (save_snapshot S L H))).1 S = true ∧
    structEq (load_snapshot (some (save_snapshot S L H))).2.1 L = true ∧
    structEq (load_snapshot (some (save_snapshot S L H))).2.2 H = true := by
  simp only [save_snapshot, jsonRoundTrip, jsonRoundTripD, load_snapshot, dictGet,
    dictGet.lookupD]
  norm_num
  exact ⟨jsonRoundTrip_structEq S, jsonRoundTrip_structEq L, jsonRoundTrip_structEq H⟩

/-! ### Snapshot load failure (C9) -/

/-- C9: `load_snapshot` is total (every raised read/parse error is caught);
a missing or unparseable file, and a parsed document lacking any of the
three required top-level fields, all yield three empty collections, whose
falsy `switches` component is the "no snapshot available" signal the caller
tests. -/
theorem load_snapshot_failure :
    load_snapshot none = (.list .nil, .list .nil, .list .nil) ∧
    (∀ doc : PyVal,
      ((dictGet doc "switches").isNone = true ∨ (dictGet doc "links").isNone = true ∨
        (dictGet doc "host_links").isNone = true) →
      load_snapshot (some doc) = (.list .nil, .list .nil, .list .nil)) ∧
    pyFalsy (.list .nil) = true := by
  refine ⟨rfl, ?_, rfl⟩
  intro doc h
  unfold load_snapshot
  cases h1 : dictGet doc "switches" <;> cases h2 : dictGet doc "links" <;>
    cases h3 : dictGet doc "host_links" <;> simp_all

/-- C9 witness: the parsed document `{}` lacks all three fields. -/
theorem load_snapshot_failure_witness :
    (dictGet (.dict .nil) "switches").isNone = true ∧
      load_snapshot (some (.dict .nil)) = (.list .nil, .list .nil, .list .nil) :=
  ⟨by decide, load_snapshot_failure.2.1 (.dict .nil) (Or.inl (by decide))⟩

/-! ### Host attachment mapper determinism (C4) -/

theorem hostLt_of_hostLe_of_key_ne {a b : RawHost} (hle : hostLe a b)
    (hne : hostKey a ≠ hostKey b) : hostLt a b := by
  unfold hostKey at hne
  rw [Ne, Prod.mk.injEq, not_and_or] at hne
  unfold hostLe at hle
  unfold hostLt
  rcases hne with h | h <;> omega

theorem sorted_hostLt_sortHosts (hosts : List RawHost)
    (hkeys : (hosts.map hostKey).Nodup) :
    List.Sorted hostLt (sortHosts hosts) := by
  have hs : List.Sorted hostLe (sortHosts hosts) := List.sorted_insertionSort _ _
  have hperm : ((sortHosts hosts).map hostKey).Perm (hosts.map hostKey) :=
    (List.perm_insertionSort hostLe hosts).map hostKey
  have hnd : ((sortHosts hosts).map hostKey).Nodup := hperm.nodup_iff.mpr hkeys
  have hpw : (sortHosts hosts).Pairwise (fun a b => hostKey a ≠ hostKey b) :=
    List.pairwise_map.mp hnd
  exact (hs.and hpw).imp (fun h => hostLt_of_hostLe_of_key_ne h.1 h.2)

theorem sortHosts_eq_of_perm (hosts1 hosts2 : List RawHost)
    (hperm : hosts1.Perm hosts2) (hkeys : (hosts1.map hostKey).Nodup) :
    sortHosts hosts1 = sortHosts hosts2 := by
  have p : (sortHosts hosts1).Perm (sortHosts hosts2) :=
    (List.perm_insertionSort hostLe hosts1).trans
      (hperm.trans (List.perm_insertionSort hostLe hosts2).symm)
  have hkeys2 : (hosts2.map hostKey).Nodup := (hperm.map hostKey).nodup_iff.mp hkeys
  exact List.eq_of_perm_of_sorted p (sorted_hostLt_sortHosts hosts1 hkeys)
    (sorted_hostLt_sortHosts hosts2 hkeys2)

theorem filterAssignHosts_eq_assignHosts (links : List RawLink) :
    ∀ (c : Nat) (l : List RawHost),
      filterAssignHosts links c l = assignHosts links c l := by
  intro c l
  induction l generalizing c with
  | nil => rfl
  | cons h t ih =>
    by_cases hp : portUsed links h.attached_switch h.attached_port = true <;>
      simp [filterAssignHosts, assignHosts, hp, ih]

theorem assignHosts_names (links : List RawLink) :
    ∀ (l : List RawHost) (c : Nat),
      (assignHosts links c l).map (·.host_name) =
        (List.range (assignHosts links c l).length).map
          (fun i => "h" ++ toString (c + i)) := by
  intro l
  induction l with
  | nil => intro c; rfl
  | cons h t ih =>
    intro c
    by_cases hp : portUsed links h.attached_switch h.attached_port = true
    · simp only [assignHosts, if_pos hp]
      exact ih c
    · simp only [assignHosts, if_neg hp, List.map_cons, List.length_cons,
        List.range_succ_eq_map, List.map_map]
      rw [ih (c + 1)]
      have hfun : ((fun i => "h" ++ toString (c + i)) ∘ Nat.succ) =
          (fun i => "h" ++ toString ((c + 1) + i)) := by
        funext i
        simp only [Function.comp]
        have hi : c + Nat.succ i = (c + 1) + i := by omega
        rw [hi]
      rw [hfun]
      simp

theorem assignHosts_keys (links : List RawLink) :
    ∀ (l : List RawHost) (c : Nat),
      (assignHosts links c l).map (fun r => (r.switch_dpid, r.port_no)) =
        (l.filter
          (fun h => !portUsed links h.attached_switch h.attached_port)).map hostKey := by
  intro l
  induction l with
  | nil => intro c; rfl
  | cons h t ih =>
    intro c
    by_cases hp : portUsed links h.attached_switch h.attached_port = true <;>
      simp [assignHosts, hp, ih, hostKey, List.filter_cons]

set_option maxRecDepth 20000 in
/-- C4 counterexample: two raw hosts sharing the attachment point
`(switch 1, port 1)`; Python's stable sort keeps them in arrival order, so
the two orders of the same host set receive opposite name assignments. -/
theorem host_mapping_not_permutation_invariant :
    ([⟨"aa", 1, 1⟩, ⟨"bb", 1, 1⟩] : List RawHost).Perm [⟨"bb", 1, 1⟩, ⟨"aa", 1, 1⟩] ∧
    initialize_host_mapping [] [⟨"aa", 1, 1⟩, ⟨"bb", 1, 1⟩] ≠
      initialize_host_mapping [] [⟨"bb", 1, 1⟩, ⟨"aa", 1, 1⟩] := by
  constructor
  · exact List.Perm.swap _ _ _
  · decide

/-- C4 (amended): for raw host lists whose `(attached_switch, attached_port)`
sort keys are pairwise distinct, the Host Attachment Mapper
(`initialize_host_mapping`, equivalently `filter_host_links`) yields the same
record list for every permutation of the raw host list, with display names
`h1, h2, ...` assigned in strictly ascending `(switch, port)` order.  (The
unamended claim, quantifying over all host lists, fails on tied sort keys:
see the counterexample.) -/
theorem host_mapping_deterministic_on_distinct_keys
    (links : List RawLink) (hosts1 hosts2 : List RawHost)
    (hperm : hosts1.Perm hosts2)
    (hkeys : (hosts1.map hostKey).Nodup) :
    initialize_host_mapping links hosts1 = initialize_host_mapping links hosts2 ∧
    filter_host_links links hosts1 = initialize_host_mapping links hosts1 ∧
    (initialize_host_mapping links hosts1).map (·.host_name) =
      (List.range (initialize_host_mapping links hosts1).length).map
        (fun i => "h" ++ toString (i + 1)) ∧
    ((initialize_host_mapping links hosts1).map
      (fun r => (r.switch_dpid, r.port_no))).Pairwise pairLt := by
  refine ⟨?_, ?_, ?_, ?_⟩
  · unfold initialize_host_mapping
    rw [sortHosts_eq_of_perm hosts1 hosts2 hperm hkeys]
  · unfold filter_host_links initialize_host_mapping
    rw [filterAssignHosts_eq_assignHosts]
  · unfold initialize_host_mapping
    rw [assignHosts_names]
    have he : ∀ i, 1 + i = i + 1 := by omega
    simp [he]
  · unfold initialize_host_mapping
    rw [assignHosts_keys]
    have hsorted : List.Sorted hostLt (sortHosts hosts1) :=
      sorted_hostLt_sortHosts hosts1 hkeys
    have hf : (List.filter
        (fun h => !portUsed links h.attached_switch h.attached_port)
        (sortHosts hosts1)).Pairwise hostLt := hsorted.filter _
    exact List.pairwise_map.mpr (hf.imp (fun {a b} h => by
      unfold hostLt at h; unfold pairLt hostKey; exact h))

/-- C4 witness: two hosts with distinct attachment points, in the two
possible arrival orders. -/
theorem host_mapping_deterministic_witness :
    initialize_host_mapping [] [⟨"m2", 2, 3⟩, ⟨"m1", 1, 3⟩] =
      initialize_host_mapping [] [⟨"m1", 1, 3⟩, ⟨"m2", 2, 3⟩] ∧
    filter_host_links [] [⟨"m2", 2, 3⟩, ⟨"m1", 1, 3⟩] =
      initialize_host_mapping [] [⟨"m2", 2, 3⟩, ⟨"m1", 1, 3⟩] ∧
    (initialize_host_mapping [] [⟨"m2", 2, 3⟩, ⟨"m1", 1, 3⟩]).map (·.host_name) =
      (List.range
        (initialize_host_mapping [] [⟨"m2", 2, 3⟩, ⟨"m1", 1, 3⟩]).length).map
        (fun i => "h" ++ toString (i + 1)) ∧
    ((initialize_host_mapping [] [⟨"m2", 2, 3⟩, ⟨"m1", 1, 3⟩]).map
      (fun r => (r.switch_dpid, r.port_no))).Pairwise pairLt :=
  host_mapping_deterministic_on_distinct_keys [] _ _ (List.Perm.swap _ _ _) (by decide)

/-! ### `add_link` rejection (C1) and port reuse (C8); `remove_link` on
parallel records (C10) -/

theorem findValid_isNone (isl : List SwitchLink) (hsnap : List HostRec)
    (a b : Node) :
    findValid isl hsnap a b = none ↔ factsHaveEdge isl hsnap a b = false := by
  cases a <;> cases b <;>
    simp [findValid, factsHaveEdge, Option.map_eq_none', List.find?_eq_none,
      List.any_eq_false]

/-- C1: for every pair of endpoint tokens whose parsed edge is not present
in the ground-truth facts (`initial_switch_links` for switch-switch pairs,
the host-links snapshot for pairs involving a host), `add_link` leaves the
graph's node set and edge set and both tracked collections unchanged and
reports the "not connected in original topology" rejection.  The facts are
assumed captured (both passed as actual lists, i.e. non-`None`). -/
theorem add_link_rejects_unknown_edge
    (G : Graph) (source destination : String) (switches : List Int)
    (links : List LinkRec) (host_links : List HostRec)
    (isl : List SwitchLink) (hsnap : List HostRec) (a b : Node)
    (hsrc : parseToken source = some a) (hdst : parseToken destination = some b)
    (hmiss : factsHaveEdge isl hsnap a b = false) :
    (add_link G source destination switches links host_links isl hsnap).G.nodes =
        G.nodes ∧
    (add_link G source destination switches links host_links isl hsnap).G.edges =
        G.edges ∧
    (add_link G source destination switches links host_links isl hsnap).links =
        links ∧
    (add_link G source destination switches links host_links isl hsnap).host_links =
        host_links ∧
    (add_link G source destination switches links host_links isl hsnap).result =
        .notConnected := by
  have hv : findValid isl hsnap a b = none := (findValid_isNone isl hsnap a b).mpr hmiss
  simp [add_link, hsrc, hdst, add_link_parsed, hv]

/-- C1 witness: tokens `"1"` and `"3"` against ground truth holding only the
switch link 1–2. -/
theorem add_link_rejects_unknown_edge_witness :
    parseToken "1" = some (.sw 1) ∧ parseToken "3" = some (.sw 3) ∧
    factsHaveEdge [((1, 1), (2, 1))] [] (.sw 1) (.sw 3) = false ∧
    (add_link Graph.empty "1" "3" [1, 2] [((1, some 1), (2, some 1))] []
        [((1, 1), (2, 1))] []).links = [((1, some 1), (2, some 1))] ∧
    (add_link Graph.empty "1" "3" [1, 2] [((1, some 1), (2, some 1))] []
        [((1, 1), (2, 1))] []).result = .notConnected :=
  ⟨by decide, by decide, by decide,
    (add_link_rejects_unknown_edge Graph.empty "1" "3" [1, 2]
      [((1, some 1), (2, some 1))] [] [((1, 1), (2, 1))] [] (.sw 1) (.sw 3)
      (by decide) (by decide) (by decide)).2.2.1,
    (add_link_rejects_unknown_edge Graph.empty "1" "3" [1, 2]
      [((1, some 1), (2, some 1))] [] [((1, 1), (2, 1))] [] (.sw 1) (.sw 3)
      (by decide) (by decide) (by decide)).2.2.2.2⟩

/-- C8: every valid `add_link` appends a record whose port information is the
port recorded in the (first) matching ground-truth fact: for switch-switch
links the `src`-side port of the matching `initial_switch_links` entry, for
host-switch links (in either token order) the `port_no` of the matching
snapshot record. -/
theorem add_link_reuses_fact_port
    (G : Graph) (switches : List Int) (links : List LinkRec)
    (host_links : List HostRec) (isl : List SwitchLink) (hsnap : List HostRec) :
    (∀ (s d : Int) (fact : SwitchLink),
      isl.find? (fun l => switchMatch l s d) = some fact →
      ∃ p, (add_link_parsed G (.sw s) (.sw d) switches links host_links isl
            hsnap).links = links ++ [((s, some p), (d, none))] ∧
        fact ∈ isl ∧ switchMatch fact s d = true ∧
        ((fact.1.1 = s ∧ p = fact.1.2) ∨ (fact.2.1 = s ∧ p = fact.2.2))) ∧
    (∀ (h : String) (d : Int) (fact : HostRec),
      hsnap.find? (fun hl => hostMatch hl (.host h) (.sw d)) = some fact →
      (add_link_parsed G (.host h) (.sw d) switches links host_links isl
          hsnap).host_links = host_links ++ [⟨h, none, d, fact.port_no⟩] ∧
        fact ∈ hsnap ∧ fact.host_name = h ∧ fact.switch_dpid = d) ∧
    (∀ (s : Int) (h : String) (fact : HostRec),
      hsnap.find? (fun hl => hostMatch hl (.sw s) (.host h)) = some fact →
      (add_link_parsed G (.sw s) (.host h) switches links host_links isl
          hsnap).host_links = host_links ++ [⟨h, none, s, fact.port_no⟩] ∧
        fact ∈ hsnap ∧ fact.host_name = h ∧ fact.switch_dpid = s) := by
  refine ⟨?_, ?_, ?_⟩
  · intro s d fact hf
    have hmem : fact ∈ isl := List.mem_of_find?_eq_some hf
    have hmatch : switchMatch fact s d = true := by
      have hx := List.find?_some hf
      simpa using hx
    refine ⟨if fact.1.1 = s then fact.1.2 else fact.2.2, ?_, hmem, hmatch, ?_⟩
    · simp [add_link_parsed, findValid, hf]
    · have hset : (fact.1.1 = s ∧ fact.2.1 = d) ∨ (fact.1.1 = d ∧ fact.2.1 = s) := by
        have := hmatch
        unfold switchMatch idSetEqB at this
        exact of_decide_eq_true this
      by_cases h11 : fact.1.1 = s
      · exact Or.inl ⟨h11, by rw [if_pos h11]⟩
      · refine Or.inr ⟨?_, by rw [if_neg h11]⟩
        rcases hset with ⟨h1, _⟩ | ⟨_, h2⟩
        · exact absurd h1 h11
        · exact h2
  · intro h d fact hf
    have hmem : fact ∈ hsnap := List.mem_of_find?_eq_some hf
    have hmatch : hostMatch fact (.host h) (.sw d) = true := by
      have hx := List.find?_some hf
      simpa using hx
    have hfields : fact.host_name = h ∧ fact.switch_dpid = d := by
      unfold hostMatch pyEqStr pyEqInt at hmatch
      simp only [Bool.false_and, Bool.and_false, Bool.or_false, Bool.and_eq_true,
        beq_iff_eq] at hmatch
      exact ⟨hmatch.1.symm, hmatch.2.symm⟩
    refine ⟨?_, hmem, hfields.1, hfields.2⟩
    simp [add_link_parsed, findValid, hf, pyHostNameChoice, pySwitchChoice]
  · intro s h fact hf
    have hmem : fact ∈ hsnap := List.mem_of_find?_eq_some hf
    have hmatch : hostMatch fact (.sw s) (.host h) = true := by
      have hx := List.find?_some hf
      simpa using hx
    have hfields : fact.host_name = h ∧ fact.switch_dpid = s := by
      unfold hostMatch pyEqStr pyEqInt at hmatch
      simp only [Bool.false_and, Bool.and_false, Bool.false_or, Bool.and_eq_true,
        beq_iff_eq] at hmatch
      exact ⟨hmatch.1.symm, hmatch.2.symm⟩
    refine ⟨?_, hmem, hfields.1, hfields.2⟩
    simp [add_link_parsed, findValid, hf, pyHostNameChoice, pySwitchChoice]

/-- C8 witness: a valid host-switch link-up reuses port 3 recorded in the
snapshot record for `("h1", switch 1)`. -/
theorem add_link_reuses_fact_port_witness :
    ([(⟨"h1", some "m1", 1, 3⟩ : HostRec)].find?
        (fun hl => hostMatch hl (.host "h1") (.sw 1)) = some ⟨"h1", some "m1", 1, 3⟩) ∧
    (add_link_parsed Graph.empty (.host "h1") (.sw 1) [1] [] []
        [] [⟨"h1", some "m1", 1, 3⟩]).host_links = [] ++ [⟨"h1", none, 1, 3⟩] ∧
    (⟨"h1", some "m1", 1, 3⟩ : HostRec) ∈ [(⟨"h1", some "m1", 1, 3⟩ : HostRec)] ∧
    (⟨"h1", some "m1", 1, 3⟩ : HostRec).host_name = "h1" ∧
    (⟨"h1", some "m1", 1, 3⟩ : HostRec).switch_dpid = 1 :=
  ⟨by decide,
    (add_link_reuses_fact_port Graph.empty [1] [] [] [] [⟨"h1", some "m1", 1, 3⟩]).2.1
      "h1" 1 ⟨"h1", some "m1", 1, 3⟩ (by decide)⟩

theorem idSetEqB_iff_setEq (a b c d : Int) :
    idSetEqB a b c d = true ↔ ({a, b} : Set Int) = {c, d} := by
  unfold idSetEqB
  rw [decide_eq_true_eq]
  constructor
  · rintro (⟨h1, h2⟩ | ⟨h1, h2⟩) <;> subst h1 <;> subst h2
    · rfl
    · exact Set.pair_comm a b
  · intro h
    have h1 := Set.ext_iff.mp h a
    have h2 := Set.ext_iff.mp h b
    have h3 := Set.ext_iff.mp h c
    have h4 := Set.ext_iff.mp h d
    simp only [Set.mem_insert_iff, Set.mem_singleton_iff, true_or, or_true,
      true_iff, iff_true] at h1 h2 h3 h4
    omega

/-- C10: removing a present switch-to-switch edge deletes from the tracked
`links` collection every record whose unordered switch-id pair equals that of
the removed edge — the match is on switch ids only, ignoring ports, so one
`linkDown` removes all parallel records between the two switches.  The
host-links collection is untouched. -/
theorem remove_link_removes_all_parallel_records
    (G : Graph) (switches : List Int) (links : List LinkRec)
    (host_links : List HostRec) (all_hosts : List String) (s d : Int)
    (hedge : hasEdge G (.sw s) (.sw d) = true) :
    (remove_link_parsed G (.sw s) (.sw d) switches links host_links
        all_hosts).links = links.filter (fun l => !idSetEqB l.1.1 l.2.1 s d) ∧
    (∀ l : LinkRec,
      l ∈ (remove_link_parsed G (.sw s) (.sw d) switches links host_links
          all_hosts).links ↔
        l ∈ links ∧ ¬ ({l.1.1, l.2.1} : Set Int) = {s, d}) ∧
    (remove_link_parsed G (.sw s) (.sw d) switches links host_links
        all_hosts).host_links = host_links ∧
    (remove_link_parsed G (.sw s) (.sw d) switches links host_links
        all_hosts).result = .removed := by
  have hred : remove_link_parsed G (.sw s) (.sw d) switches links host_links
      all_hosts =
      ⟨rebuildGraph switches (links.filter (fun l => !idSetEqB l.1.1 l.2.1 s d))
          host_links,
        links.filter (fun l => !idSetEqB l.1.1 l.2.1 s d), host_links, .removed⟩ := by
    simp [remove_link_parsed, if_pos hedge]
  rw [hred]
  refine ⟨rfl, ?_, rfl, rfl⟩
  intro l
  rw [List.mem_filter]
  constructor
  · rintro ⟨hm, hb⟩
    refine ⟨hm, fun hset => ?_⟩
    rw [Bool.not_eq_true'] at hb
    rw [(idSetEqB_iff_setEq _ _ _ _).mpr hset] at hb
    exact absurd hb (by decide)
  · rintro ⟨hm, hset⟩
    refine ⟨hm, ?_⟩
    rw [Bool.not_eq_true']
    cases hb : idSetEqB l.1.1 l.2.1 s d
    · rfl
    · exact absurd ((idSetEqB_iff_setEq _ _ _ _).mp hb) hset

/-- C10 witness: two parallel records between switches 1 and 2 (with
different ports and orientations) are both removed by one `linkDown`; the
record between 1 and 3 survives. -/
theorem remove_link_parallel_witness :
    hasEdge (rebuildGraph [1, 2, 3]
        [((1, some 1), (2, some 1)), ((2, some 5), (1, some 7)),
          ((1, some 9), (3, some 2))] []) (.sw 1) (.sw 2) = true ∧
    (remove_link_parsed (rebuildGraph [1, 2, 3]
        [((1, some 1), (2, some 1)), ((2, some 5), (1, some 7)),
          ((1, some 9), (3, some 2))] []) (.sw 1) (.sw 2) [1, 2, 3]
        [((1, some 1), (2, some 1)), ((2, some 5), (1, some 7)),
          ((1, some 9), (3, some 2))] [] []).links =
      ([((1, some 1), (2, some 1)), ((2, some 5), (1, some 7)),
          ((1, some 9), (3, some 2))] : List LinkRec).filter
        (fun l => !idSetEqB l.1.1 l.2.1 1 2) :=
  ⟨by decide,
    (remove_link_removes_all_parallel_records _ [1, 2, 3] _ [] [] 1 2 (by decide)).1⟩

/-! ### Graph-rebuild characterization (towards C7) -/

/-- An undirected edge slot `p` connects `x` and `y`. -/
def pairMatch (p : Node × Node) (x y : Node) : Prop :=
  (p.1 = x ∧ p.2 = y) ∨ (p.1 = y ∧ p.2 = x)

theorem pairMatch_swap (u v x y : Node) :
    pairMatch (u, v) x y ↔ pairMatch (v, u) x y := by
  unfold pairMatch
  tauto

theorem pairMatch_args_comm (p : Node × Node) (x y : Node) :
    pairMatch p x y ↔ pairMatch p y x := by
  unfold pairMatch
  tauto

theorem hasEdge_iff_exists (g : Graph) (x y : Node) :
    hasEdge g x y = true ↔ ∃ e ∈ g.edges, pairMatch e x y := by
  unfold hasEdge pairMatch
  simp [List.any_eq_true]

theorem addNode_mem_nodes (g : Graph) (m n : Node) :
    n ∈ (addNode g m).nodes ↔ n ∈ g.nodes ∨ n = m := by
  unfold addNode
  split_ifs with h
  · constructor
    · exact Or.inl
    · rintro (hn | rfl) <;> assumption
  · simp

theorem addNode_edges (g : Graph) (m : Node) : (addNode g m).edges = g.edges := by
  unfold addNode
  split_ifs <;> rfl

theorem addEdge_mem_nodes (g : Graph) (a b n : Node) :
    n ∈ (addEdge g a b).nodes ↔ n ∈ g.nodes ∨ n = a ∨ n = b := by
  simp only [addEdge]
  split_ifs <;>
    simp [addNode_mem_nodes, or_assoc]

theorem addEdge_hasEdge (g : Graph) (a b x y : Node) :
    hasEdge (addEdge g a b) x y = true ↔
      hasEdge g x y = true ∨ pairMatch (a, b) x y := by
  simp only [addEdge]
  have hed : (addNode (addNode g a) b).edges = g.edges := by
    rw [addNode_edges, addNode_edges]
  split_ifs with h
  · rw [hasEdge_iff_exists, hed, ← hasEdge_iff_exists]
    constructor
    · exact Or.inl
    · rintro (hx | hp)
      · exact hx
      · rw [hasEdge_iff_exists, hed] at h
        rw [hasEdge_iff_exists]
        obtain ⟨e, he, hm⟩ := h
        refine ⟨e, he, ?_⟩
        rcases hp with ⟨rfl, rfl⟩ | ⟨rfl, rfl⟩
        · exact hm
        · unfold pairMatch at hm ⊢
          tauto
  · rw [hasEdge_iff_exists, hasEdge_iff_exists]
    simp only [List.mem_append, List.mem_singleton, hed]
    constructor
    · rintro ⟨e, he | rfl, hm⟩
      · exact Or.inl ⟨e, he, hm⟩
      · exact Or.inr hm
    · rintro (⟨e, he, hm⟩ | hp)
      · exact ⟨e, Or.inl he, hm⟩
      · exact ⟨(a, b), Or.inr rfl, hp⟩

theorem addNode_hasEdge (g : Graph) (m x y : Node) :
    hasEdge (addNode g m) x y = hasEdge g x y := by
  unfold hasEdge
  rw [addNode_edges]

theorem addNodes_mem_nodes (ns : List Node) :
    ∀ (g : Graph) (n : Node), n ∈ (addNodes g ns).nodes ↔ n ∈ g.nodes ∨ n ∈ ns := by
  induction ns with
  | nil => intro g n; simp [addNodes]
  | cons m ms ih =>
    intro g n
    show n ∈ (addNodes (addNode g m) ms).nodes ↔ _
    rw [ih, addNode_mem_nodes]
    simp
    tauto

theorem addNodes_edges_eq (ns : List Node) :
    ∀ g : Graph, (addNodes g ns).edges = g.edges := by
  induction ns with
  | nil => intro g; rfl
  | cons m ms ih =>
    intro g
    show (addNodes (addNode g m) ms).edges = _
    rw [ih, addNode_edges]

theorem addEdges_mem_nodes (es : List (Node × Node)) :
    ∀ (g : Graph) (n : Node),
      n ∈ (addEdges g es).nodes ↔ n ∈ g.nodes ∨ ∃ e ∈ es, n = e.1 ∨ n = e.2 := by
  induction es with
  | nil => intro g n; simp [addEdges]
  | cons e es ih =>
    intro g n
    show n ∈ (addEdges (addEdge g e.1 e.2) es).nodes ↔ _
    rw [ih, addEdge_mem_nodes]
    simp only [List.mem_cons]
    constructor
    · rintro ((hg | hp) | ⟨e', he', hp⟩)
      · exact Or.inl hg
      · exact Or.inr ⟨e, Or.inl rfl, hp⟩
      · exact Or.inr ⟨e', Or.inr he', hp⟩
    · rintro (hg | ⟨e', rfl | he', hp⟩)
      · exact Or.inl (Or.inl hg)
      · exact Or.inl (Or.inr hp)
      · exact Or.inr ⟨e', he', hp⟩

theorem addEdges_hasEdge (es : List (Node × Node)) :
    ∀ (g : Graph) (x y : Node),
      hasEdge (addEdges g es) x y = true ↔
        hasEdge g x y = true ∨ ∃ e ∈ es, pairMatch e x y := by
  induction es with
  | nil => intro g x y; simp [addEdges]
  | cons e es ih =>
    intro g x y
    show hasEdge (addEdges (addEdge g e.1 e.2) es) x y = true ↔ _
    rw [ih, addEdge_hasEdge]
    simp only [List.mem_cons]
    constructor
    · rintro ((hg | hp) | ⟨e', he', hp⟩)
      · exact Or.inl hg
      · exact Or.inr ⟨e, Or.inl rfl, hp⟩
      · exact Or.inr ⟨e', Or.inr he', hp⟩
    · rintro (hg | ⟨e', rfl | he', hp⟩)
      · exact Or.inl (Or.inl hg)
      · exact Or.inl (Or.inr hp)
      · exact Or.inr ⟨e', he', hp⟩

theorem addHostLinks_mem_nodes (hs : List HostRec) :
    ∀ (g : Graph) (n : Node),
      n ∈ (addHostLinks g hs).nodes ↔
        n ∈ g.nodes ∨ ∃ h ∈ hs, n = .host h.host_name ∨ n = .sw h.switch_dpid := by
  induction hs with
  | nil => intro g n; simp [addHostLinks]
  | cons h hs ih =>
    intro g n
    show n ∈ (addHostLinks (addEdge (addNode g (.host h.host_name))
      (.sw h.switch_dpid) (.host h.host_name)) hs).nodes ↔ _
    rw [ih, addEdge_mem_nodes, addNode_mem_nodes]
    simp only [List.mem_cons]
    constructor
    · rintro (((hg | hn) | hsw | hho) | ⟨h', hh', hp⟩)
      · exact Or.inl hg
      · exact Or.inr ⟨h, Or.inl rfl, Or.inl hn⟩
      · exact Or.inr ⟨h, Or.inl rfl, Or.inr hsw⟩
      · exact Or.inr ⟨h, Or.inl rfl, Or.inl hho⟩
      · exact Or.inr ⟨h', Or.inr hh', hp⟩
    · rintro (hg | ⟨h', rfl | hh', hp⟩)
      · exact Or.inl (Or.inl (Or.inl hg))
      · rcases hp with hn | hsw
        · exact Or.inl (Or.inl (Or.inr hn))
        · exact Or.inl (Or.inr (Or.inl hsw))
      · exact Or.inr ⟨h', hh', hp⟩

theorem addHostLinks_hasEdge (hs : List HostRec) :
    ∀ (g : Graph) (x y : Node),
      hasEdge (addHostLinks g hs) x y = true ↔
        hasEdge g x y = true ∨ ∃ h ∈ hs, pairMatch (hostNodePair h) x y := by
  induction hs with
  | nil => intro g x y; simp [addHostLinks]
  | cons h hs ih =>
    intro g x y
    show hasEdge (addHostLinks (addEdge (addNode g (.host h.host_name))
      (.sw h.switch_dpid) (.host h.host_name)) hs) x y = true ↔ _
    rw [ih, addEdge_hasEdge, addNode_hasEdge]
    simp only [List.mem_cons, hostNodePair]
    constructor
    · rintro ((hg | hp) | ⟨h', hh', hp⟩)
      · exact Or.inl hg
      · exact Or.inr ⟨h, Or.inl rfl, hp⟩
      · exact Or.inr ⟨h', Or.inr hh', hp⟩
    · rintro (hg | ⟨h', rfl | hh', hp⟩)
      · exact Or.inl (Or.inl hg)
      · exact Or.inl (Or.inr hp)
      · exact Or.inr ⟨h', hh', hp⟩

theorem rebuildGraph_mem_nodes (switches : List Int) (links : List LinkRec)
    (host_links : List HostRec) (n : Node) :
    n ∈ (rebuildGraph switches links host_links).nodes ↔
      (∃ i ∈ switches, n = Node.sw i) ∨
      (∃ l ∈ links, n = .sw l.1.1 ∨ n = .sw l.2.1) ∨
      (∃ h ∈ host_links, n = .host h.host_name ∨ n = .sw h.switch_dpid) := by
  unfold rebuildGraph
  rw [addHostLinks_mem_nodes, addEdges_mem_nodes, addNodes_mem_nodes]
  have hbase : n ∈ Graph.empty.nodes ↔ False := by simp [Graph.empty]
  rw [hbase]
  simp only [false_or, List.mem_map, linkNodePair]
  constructor
  · rintro ((⟨i, hi, rfl⟩ | ⟨e, ⟨l, hl, rfl⟩, hp⟩) | hh)
    · exact Or.inl ⟨i, hi, rfl⟩
    · exact Or.inr (Or.inl ⟨l, hl, hp⟩)
    · exact Or.inr (Or.inr hh)
  · rintro (⟨i, hi, rfl⟩ | ⟨l, hl, hp⟩ | hh)
    · exact Or.inl (Or.inl ⟨i, hi, rfl⟩)
    · exact Or.inl (Or.inr ⟨linkNodePair l, ⟨l, hl, rfl⟩, hp⟩)
    · exact Or.inr hh

theorem rebuildGraph_hasEdge (switches : List Int) (links : List LinkRec)
    (host_links : List HostRec) (x y : Node) :
    hasEdge (rebuildGraph switches links host_links) x y = true ↔
      (∃ l ∈ links, pairMatch (linkNodePair l) x y) ∨
      (∃ h ∈ host_links, pairMatch (hostNodePair h) x y) := by
  unfold rebuildGraph
  rw [addHostLinks_hasEdge, addEdges_hasEdge]
  have hbase : hasEdge (addNodes Graph.empty (switches.map Node.sw)) x y = false := by
    rw [hasEdge]
    rw [addNodes_edges_eq]
    rfl
  rw [hbase]
  simp only [Bool.false_eq_true, false_or, List.mem_map]
  constructor
  · rintro (⟨e, ⟨l, hl, rfl⟩, hp⟩ | hh)
    · exact Or.inl ⟨l, hl, hp⟩
    · exact Or.inr hh
  · rintro (⟨l, hl, hp⟩ | hh)
    · exact Or.inl ⟨linkNodePair l, ⟨l, hl, rfl⟩, hp⟩
    · exact Or.inr hh

theorem pairMatch_trans_iff (p : Node × Node) (u v : Node) (hm : pairMatch p u v) :
    ∀ x y, pairMatch p x y ↔ pairMatch (u, v) x y := by
  rcases p with ⟨p1, p2⟩
  rcases hm with ⟨h1, h2⟩ | ⟨h1, h2⟩ <;> subst h1 <;> subst h2
  · intro x y; exact Iff.rfl
  · intro x y; exact pairMatch_swap p1 p2 x y

theorem swsw_pairMatch_iff (l : LinkRec) (s d : Int) :
    pairMatch (linkNodePair l) (.sw s) (.sw d) ↔
      (l.1.1 = s ∧ l.2.1 = d) ∨ (l.1.1 = d ∧ l.2.1 = s) := by
  simp [linkNodePair, pairMatch]

theorem idSetEqB_iff_pairMatch (l : LinkRec) (s d : Int) :
    idSetEqB l.1.1 l.2.1 s d = true ↔
      pairMatch (linkNodePair l) (.sw s) (.sw d) := by
  rw [swsw_pairMatch_iff]
  unfold idSetEqB
  exact decide_eq_true_iff

theorem no_swsw_hostPair (h : HostRec) (s d : Int) :
    ¬ pairMatch (hostNodePair h) (.sw s) (.sw d) := by
  rintro (⟨-, h2⟩ | ⟨-, h2⟩) <;> exact Node.noConfusion h2

theorem no_host_linkPair (l : LinkRec) (h : String) (y : Node) :
    ¬ pairMatch (linkNodePair l) (.host h) y := by
  rintro (⟨h1, -⟩ | ⟨-, h2⟩)
  · exact Node.noConfusion h1
  · exact Node.noConfusion h2

theorem hostPair_match_host_sw (h0 : HostRec) (hname : String) (dd : Int) :
    pairMatch (hostNodePair h0) (.host hname) (.sw dd) ↔
      h0.host_name = hname ∧ h0.switch_dpid = dd := by
  unfold hostNodePair pairMatch
  simp only [Prod.fst, Prod.snd]
  constructor
  · rintro (⟨h1, -⟩ | ⟨h1, h2⟩)
    · exact Node.noConfusion h1
    · exact ⟨Node.host.inj h2, Node.sw.inj h1⟩
  · rintro ⟨rfl, rfl⟩
    exact Or.inr ⟨rfl, rfl⟩

theorem hostMatch_host_sw_iff (hl : HostRec) (hname : String) (dd : Int) :
    hostMatch hl (.host hname) (.sw dd) = true ↔
      hl.host_name = hname ∧ hl.switch_dpid = dd := by
  unfold hostMatch pyEqStr pyEqInt
  simp only [Bool.false_and, Bool.and_false, Bool.or_false, Bool.and_eq_true,
    beq_iff_eq]
  constructor
  · rintro ⟨h1, h2⟩; exact ⟨h1.symm, h2.symm⟩
  · rintro ⟨h1, h2⟩; exact ⟨h1.symm, h2.symm⟩

theorem hostMatch_sw_host_iff (hl : HostRec) (ss : Int) (hname : String) :
    hostMatch hl (.sw ss) (.host hname) = true ↔
      hl.host_name = hname ∧ hl.switch_dpid = ss := by
  unfold hostMatch pyEqStr pyEqInt
  simp only [Bool.false_and, Bool.and_false, Bool.false_or, Bool.and_eq_true,
    beq_iff_eq]
  constructor
  · rintro ⟨h1, h2⟩; exact ⟨h1.symm, h2.symm⟩
  · rintro ⟨h1, h2⟩; exact ⟨h1.symm, h2.symm⟩

theorem hostMatch_host_host (hl : HostRec) (x y : String) :
    hostMatch hl (.host x) (.host y) = false := by
  unfold hostMatch pyEqStr pyEqInt
  simp

theorem filterAppend_links_hasEdge_iff (links : List LinkRec) (s d : Int)
    (hex : ∃ l0 ∈ links, pairMatch (linkNodePair l0) (.sw s) (.sw d))
    (newrec : LinkRec) (h1 : newrec.1.1 = s) (h2 : newrec.2.1 = d) :
    ∀ x y,
      (∃ l ∈ links.filter (fun l => !idSetEqB l.1.1 l.2.1 s d) ++ [newrec],
        pairMatch (linkNodePair l) x y) ↔
      (∃ l ∈ links, pairMatch (linkNodePair l) x y) := by
  intro x y
  have hnewpair : linkNodePair newrec = (.sw s, .sw d) := by
    unfold linkNodePair
    rw [h1, h2]
  constructor
  · rintro ⟨l, hmem, hp⟩
    rcases List.mem_append.mp hmem with hf | hn
    · exact ⟨l, List.mem_of_mem_filter hf, hp⟩
    · obtain ⟨l0, hl0, hp0⟩ := hex
      rw [List.mem_singleton.mp hn, hnewpair] at hp
      exact ⟨l0, hl0, (pairMatch_trans_iff _ _ _ hp0 x y).mpr hp⟩
  · rintro ⟨l, hmem, hp⟩
    cases hb : idSetEqB l.1.1 l.2.1 s d
    · refine ⟨l, List.mem_append_left _ ?_, hp⟩
      exact List.mem_filter.mpr ⟨hmem, by rw [hb]; rfl⟩
    · refine ⟨newrec, List.mem_append_right _ (List.mem_singleton.mpr rfl), ?_⟩
      rw [hnewpair]
      exact (pairMatch_trans_iff _ _ _ ((idSetEqB_iff_pairMatch l s d).mp hb) x y).mp hp

theorem filterAppend_links_nodes_iff (links : List LinkRec) (s d : Int)
    (hex : ∃ l0 ∈ links, pairMatch (linkNodePair l0) (.sw s) (.sw d))
    (newrec : LinkRec) (h1 : newrec.1.1 = s) (h2 : newrec.2.1 = d) :
    ∀ n : Node,
      (∃ l ∈ links.filter (fun l => !idSetEqB l.1.1 l.2.1 s d) ++ [newrec],
        n = .sw l.1.1 ∨ n = .sw l.2.1) ↔
      (∃ l ∈ links, n = .sw l.1.1 ∨ n = .sw l.2.1) := by
  intro n
  constructor
  · rintro ⟨l, hmem, hp⟩
    rcases List.mem_append.mp hmem with hf | hn
    · exact ⟨l, List.mem_of_mem_filter hf, hp⟩
    · obtain ⟨l0, hl0, hp0⟩ := hex
      rw [List.mem_singleton.mp hn] at hp
      rw [h1, h2] at hp
      rcases (swsw_pairMatch_iff l0 s d).mp hp0 with ⟨e1, e2⟩ | ⟨e1, e2⟩ <;>
        refine ⟨l0, hl0, ?_⟩ <;> rw [e1, e2] <;> tauto
  · rintro ⟨l, hmem, hp⟩
    cases hb : idSetEqB l.1.1 l.2.1 s d
    · refine ⟨l, List.mem_append_left _ ?_, hp⟩
      exact List.mem_filter.mpr ⟨hmem, by rw [hb]; rfl⟩
    · refine ⟨newrec, List.mem_append_right _ (List.mem_singleton.mpr rfl), ?_⟩
      rw [h1, h2]
      rcases (swsw_pairMatch_iff l s d).mp ((idSetEqB_iff_pairMatch l s d).mp hb) with
        ⟨e1, e2⟩ | ⟨e1, e2⟩ <;> rw [e1, e2] at hp <;> tauto

theorem filterAppend_hosts_hasEdge_iff (host_links : List HostRec)
    (hname : String) (dd : Int) (p : HostRec → Bool)
    (hpred : ∀ hl, p hl = true ↔ (hl.host_name = hname ∧ hl.switch_dpid = dd))
    (hex : ∃ h0 ∈ host_links, h0.host_name = hname ∧ h0.switch_dpid = dd)
    (newrec : HostRec) (hnm : newrec.host_name = hname)
    (hdd : newrec.switch_dpid = dd) :
    ∀ x y,
      (∃ hl ∈ host_links.filter (fun hl => !p hl) ++ [newrec],
        pairMatch (hostNodePair hl) x y) ↔
      (∃ hl ∈ host_links, pairMatch (hostNodePair hl) x y) := by
  intro x y
  have hpair : ∀ hl : HostRec, hl.host_name = hname → hl.switch_dpid = dd →
      hostNodePair hl = (.sw dd, .host hname) := by
    intro hl e1 e2
    unfold hostNodePair
    rw [e1, e2]
  constructor
  · rintro ⟨hl, hmem, hp⟩
    rcases List.mem_append.mp hmem with hf | hn
    · exact ⟨hl, List.mem_of_mem_filter hf, hp⟩
    · obtain ⟨h0, h0mem, h0f⟩ := hex
      rw [List.mem_singleton.mp hn, hpair newrec hnm hdd] at hp
      rw [← hpair h0 h0f.1 h0f.2] at hp
      exact ⟨h0, h0mem, hp⟩
  · rintro ⟨hl, hmem, hp⟩
    cases hb : p hl
    · refine ⟨hl, List.mem_append_left _ ?_, hp⟩
      exact List.mem_filter.mpr ⟨hmem, by rw [hb]; rfl⟩
    · have hf := (hpred hl).mp hb
      refine ⟨newrec, List.mem_append_right _ (List.mem_singleton.mpr rfl), ?_⟩
      rw [hpair newrec hnm hdd]
      rw [hpair hl hf.1 hf.2] at hp
      exact hp

theorem filterAppend_hosts_nodes_iff (host_links : List HostRec)
    (hname : String) (dd : Int) (p : HostRec → Bool)
    (hpred : ∀ hl, p hl = true ↔ (hl.host_name = hname ∧ hl.switch_dpid = dd))
    (hex : ∃ h0 ∈ host_links, h0.host_name = hname ∧ h0.switch_dpid = dd)
    (newrec : HostRec) (hnm : newrec.host_name = hname)
    (hdd : newrec.switch_dpid = dd) :
    ∀ n : Node,
      (∃ hl ∈ host_links.filter (fun hl => !p hl) ++ [newrec],
        n = .host hl.host_name ∨ n = .sw hl.switch_dpid) ↔
      (∃ hl ∈ host_links, n = .host hl.host_name ∨ n = .sw hl.switch_dpid) := by
  intro n
  constructor
  · rintro ⟨hl, hmem, hp⟩
    rcases List.mem_append.mp hmem with hf | hn
    · exact ⟨hl, List.mem_of_mem_filter hf, hp⟩
    · obtain ⟨h0, h0mem, h0f⟩ := hex
      rw [List.mem_singleton.mp hn, hnm, hdd] at hp
      refine ⟨h0, h0mem, ?_⟩
      rw [h0f.1, h0f.2]
      exact hp
  · rintro ⟨hl, hmem, hp⟩
    cases hb : p hl
    · refine ⟨hl, List.mem_append_left _ ?_, hp⟩
      exact List.mem_filter.mpr ⟨hmem, by rw [hb]; rfl⟩
    · have hf := (hpred hl).mp hb
      refine ⟨newrec, List.mem_append_right _ (List.mem_singleton.mpr rfl), ?_⟩
      rw [hnm, hdd]
      rw [hf.1, hf.2] at hp
      exact hp

/-- `linkDown(a, b)` followed by `linkUp(a, b)`, started from a graph in
sync with the tracked collections (as maintained by `visualize_topology`). -/
def downUp (isl : List SwitchLink) (hsnap : List HostRec) (switches : List Int)
    (links : List LinkRec) (host_links : List HostRec) (all_hosts : List String)
    (a b : Node) : StepOut :=
  let st1 := remove_link_parsed (rebuildGraph switches links host_links) a b
    switches links host_links all_hosts
  add_link_parsed st1.G a b switches st1.links st1.host_links isl hsnap

/-- C7: for every edge present in the ground-truth facts and currently
present in the (collection-synced) graph, `linkDown` followed by `linkUp` on
that edge restores an edge-equivalent graph: the node set and the edge set
equal those before the `linkDown`. -/
theorem link_down_up_restores (isl : List SwitchLink) (hsnap : List HostRec)
    (switches : List Int) (links : List LinkRec) (host_links : List HostRec)
    (all_hosts : List String) (a b : Node)
    (hfact : factsHaveEdge isl hsnap a b = true)
    (hedge : hasEdge (rebuildGraph switches links host_links) a b = true) :
    (∀ n, n ∈ (downUp isl hsnap switches links host_links all_hosts a b).G.nodes ↔
        n ∈ (rebuildGraph switches links host_links).nodes) ∧
    (∀ x y,
      hasEdge (downUp isl hsnap switches links host_links all_hosts a b).G x y =
          true ↔
        hasEdge (rebuildGraph switches links host_links) x y = true) := by
  cases a with
  | sw s =>
    cases b with
    | sw d =>
      simp only [factsHaveEdge] at hfact
      cases hfind : isl.find? (fun l => switchMatch l s d) with
      | none =>
        rw [List.find?_eq_none] at hfind
        rw [List.any_eq_true] at hfact
        obtain ⟨l, hl, hp⟩ := hfact
        exact absurd hp (hfind l hl)
      | some fact =>
        have hex : ∃ l0 ∈ links, pairMatch (linkNodePair l0) (.sw s) (.sw d) := by
          rw [rebuildGraph_hasEdge] at hedge
          rcases hedge with h | ⟨h0, hh0, hp0⟩
          · exact h
          · exact absurd hp0 (no_swsw_hostPair h0 s d)
        simp only [downUp, remove_link_parsed, hedge, if_true, add_link_parsed,
          findValid, hfind, Option.map_some']
        constructor
        · intro n
          rw [rebuildGraph_mem_nodes, rebuildGraph_mem_nodes]
          exact or_congr Iff.rfl (or_congr
            (filterAppend_links_nodes_iff links s d hex _ rfl rfl n) Iff.rfl)
        · intro x y
          rw [rebuildGraph_hasEdge, rebuildGraph_hasEdge]
          exact or_congr
            (filterAppend_links_hasEdge_iff links s d hex _ rfl rfl x y) Iff.rfl
    | host hb =>
      simp only [factsHaveEdge] at hfact
      cases hfind : hsnap.find? (fun hl => hostMatch hl (.sw s) (.host hb)) with
      | none =>
        rw [List.find?_eq_none] at hfind
        rw [List.any_eq_true] at hfact
        obtain ⟨hl, hhl, hp⟩ := hfact
        exact absurd hp (hfind hl hhl)
      | some fact =>
        have hex : ∃ h0 ∈ host_links, h0.host_name = hb ∧ h0.switch_dpid = s := by
          rw [rebuildGraph_hasEdge] at hedge
          rcases hedge with ⟨l0, -, hp0⟩ | ⟨h0, hh0, hp0⟩
          · exact absurd ((pairMatch_args_comm _ _ _).mp hp0)
              (no_host_linkPair l0 hb (.sw s))
          · exact ⟨h0, hh0, (hostPair_match_host_sw h0 hb s).mp
              ((pairMatch_args_comm _ _ _).mp hp0)⟩
        simp only [downUp, remove_link_parsed, hedge, if_true, add_link_parsed,
          findValid, hfind, Option.map_some']
        constructor
        · intro n
          rw [rebuildGraph_mem_nodes, rebuildGraph_mem_nodes]
          exact or_congr Iff.rfl (or_congr Iff.rfl
            (filterAppend_hosts_nodes_iff host_links hb s _
              (fun hl => hostMatch_sw_host_iff hl s hb) hex _ rfl rfl n))
        · intro x y
          rw [rebuildGraph_hasEdge, rebuildGraph_hasEdge]
          exact or_congr Iff.rfl
            (filterAppend_hosts_hasEdge_iff host_links hb s _
              (fun hl => hostMatch_sw_host_iff hl s hb) hex _ rfl rfl x y)
  | host ha =>
    cases b with
    | sw d =>
      simp only [factsHaveEdge] at hfact
      cases hfind : hsnap.find? (fun hl => hostMatch hl (.host ha) (.sw d)) with
      | none =>
        rw [List.find?_eq_none] at hfind
        rw [List.any_eq_true] at hfact
        obtain ⟨hl, hhl, hp⟩ := hfact
        exact absurd hp (hfind hl hhl)
      | some fact =>
        have hex : ∃ h0 ∈ host_links, h0.host_name = ha ∧ h0.switch_dpid = d := by
          rw [rebuildGraph_hasEdge] at hedge
          rcases hedge with ⟨l0, -, hp0⟩ | ⟨h0, hh0, hp0⟩
          · exact absurd hp0 (no_host_linkPair l0 ha (.sw d))
          · exact ⟨h0, hh0, (hostPair_match_host_sw h0 ha d).mp hp0⟩
        simp only [downUp, remove_link_parsed, hedge, if_true, add_link_parsed,
          findValid, hfind, Option.map_some']
        constructor
        · intro n
          rw [rebuildGraph_mem_nodes, rebuildGraph_mem_nodes]
          exact or_congr Iff.rfl (or_congr Iff.rfl
            (filterAppend_hosts_nodes_iff host_links ha d _
              (fun hl => hostMatch_host_sw_iff hl ha d) hex _ rfl rfl n))
        · intro x y
          rw [rebuildGraph_hasEdge, rebuildGraph_hasEdge]
          exact or_congr Iff.rfl
            (filterAppend_hosts_hasEdge_iff host_links ha d _
              (fun hl => hostMatch_host_sw_iff hl ha d) hex _ rfl rfl x y)
    | host hb =>
      simp only [factsHaveEdge, hostMatch_host_host] at hfact
      simp at hfact

/-- C7 witness: switch link 1–2, present in ground truth and in the synced
graph built from one record, goes down and up again. -/
theorem link_down_up_restores_witness :
    (Node.sw 1 ∈ (downUp [((1, 1), (2, 1))] [⟨"h1", some "m", 1, 3⟩] [1, 2]
        [((1, some 1), (2, some 1))] [⟨"h1", some "m", 1, 3⟩] ["h1"]
        (.sw 1) (.sw 2)).G.nodes ↔
      Node.sw 1 ∈ (rebuildGraph [1, 2] [((1, some 1), (2, some 1))]
        [⟨"h1", some "m", 1, 3⟩]).nodes) ∧
    (hasEdge (downUp [((1, 1), (2, 1))] [⟨"h1", some "m", 1, 3⟩] [1, 2]
        [((1, some 1), (2, some 1))] [⟨"h1", some "m", 1, 3⟩] ["h1"]
        (.sw 1) (.sw 2)).G (.sw 1) (.sw 2) = true ↔
      hasEdge (rebuildGraph [1, 2] [((1, some 1), (2, some 1))]
        [⟨"h1", some "m", 1, 3⟩]) (.sw 1) (.sw 2) = true) :=
  ⟨(link_down_up_restores [((1, 1), (2, 1))] [⟨"h1", some "m", 1, 3⟩] [1, 2]
      [((1, some 1), (2, some 1))] [⟨"h1", some "m", 1, 3⟩] ["h1"] (.sw 1) (.sw 2)
      (by decide) (by decide)).1 (Node.sw 1),
    (link_down_up_restores [((1, 1), (2, 1))] [⟨"h1", some "m", 1, 3⟩] [1, 2]
      [((1, some 1), (2, some 1))] [⟨"h1", some "m", 1, 3⟩] ["h1"] (.sw 1) (.sw 2)
      (by decide) (by decide)).2 (.sw 1) (.sw 2)⟩

/-! ### Reachability correctness and `pingall` (C6) -/

theorem mem_stepR (g : Graph) (S : List Node) (x : Node) :
    x ∈ stepR g S ↔
      x ∈ S ∨ (x ∈ g.nodes ∧ x ∉ S ∧ ∃ m ∈ S, adjB g m x = true) := by
  unfold stepR
  simp only [List.mem_append, List.mem_filter, List.mem_dedup, Bool.and_eq_true,
    decide_eq_true_eq, List.any_eq_true]

theorem subset_stepR (g : Graph) (S : List Node) : S ⊆ stepR g S :=
  fun _ hx => List.mem_append_left _ hx

theorem start_mem_reach (g : Graph) (s : Node) :
    ∀ k, s ∈ (stepR g)^[k] [s] := by
  intro k
  induction k with
  | zero => exact List.mem_singleton.mpr rfl
  | succ k ih =>
    rw [Function.iterate_succ_apply']
    exact subset_stepR g _ ih

theorem reach_sound (g : Graph) (s : Node) :
    ∀ (k : Nat) (x : Node), x ∈ (stepR g)^[k] [s] →
      Relation.ReflTransGen (adjR g) s x := by
  intro k
  induction k with
  | zero =>
    intro x hx
    rw [Function.iterate_zero_apply] at hx
    rw [List.mem_singleton.mp hx]
  | succ k ih =>
    intro x hx
    rw [Function.iterate_succ_apply', mem_stepR] at hx
    rcases hx with hx | ⟨-, -, m, hm, hadj⟩
    · exact ih x hx
    · exact (ih m hm).tail hadj

theorem reach_nodup (g : Graph) (s : Node) :
    ∀ k, ((stepR g)^[k] [s]).Nodup := by
  intro k
  induction k with
  | zero => simp
  | succ k ih =>
    rw [Function.iterate_succ_apply']
    refine List.Nodup.append ih ((List.nodup_dedup g.nodes).filter _) ?_
    intro a ha hf
    have := (List.mem_filter.mp hf).2
    rw [Bool.and_eq_true, decide_eq_true_eq] at this
    exact this.1 ha

theorem reach_subset (g : Graph) (s : Node) (hs : s ∈ g.nodes) :
    ∀ k, (stepR g)^[k] [s] ⊆ g.nodes.dedup := by
  intro k
  induction k with
  | zero =>
    intro x hx
    rw [List.mem_singleton.mp hx]
    exact List.mem_dedup.mpr hs
  | succ k ih =>
    rw [Function.iterate_succ_apply']
    intro x hx
    rcases List.mem_append.mp hx with hx | hx
    · exact ih hx
    · exact List.mem_of_mem_filter hx

theorem stepR_eq_or_lt (g : Graph) (S : List Node) :
    stepR g S = S ∨ S.length < (stepR g S).length := by
  cases hfil : g.nodes.dedup.filter
      (fun n => decide (n ∉ S) && S.any (fun m => adjB g m n)) with
  | nil =>
    left
    unfold stepR
    rw [hfil, List.append_nil]
  | cons y ys =>
    right
    unfold stepR
    rw [hfil]
    simp only [List.length_append, List.length_cons]
    omega

theorem reach_saturated (g : Graph) (s : Node) (hs : s ∈ g.nodes) :
    stepR g (reachSet g s) = reachSet g s := by
  have A : ∀ k, stepR g ((stepR g)^[k] [s]) = (stepR g)^[k] [s] ∨
      k + 1 ≤ ((stepR g)^[k] [s]).length := by
    intro k
    induction k with
    | zero => right; simp
    | succ k ih =>
      rcases ih with hfix | hlen
      · left
        rw [Function.iterate_succ_apply', hfix]
        exact hfix
      · rcases stepR_eq_or_lt g ((stepR g)^[k] [s]) with hfix | hlt
        · left
          rw [Function.iterate_succ_apply', hfix]
          exact hfix
        · right
          rw [Function.iterate_succ_apply']
          omega
  rcases A g.nodes.dedup.length with hfix | hlen
  · exact hfix
  · exfalso
    have hle : ((stepR g)^[g.nodes.dedup.length] [s]).length ≤
        g.nodes.dedup.length :=
      (List.subperm_of_subset (reach_nodup g s _) (reach_subset g s hs _)).length_le
    omega

theorem reach_closed (g : Graph) (s : Node) (hs : s ∈ g.nodes) :
    ∀ n ∈ g.nodes, (∃ m ∈ reachSet g s, adjB g m n = true) → n ∈ reachSet g s := by
  intro n hn hex
  by_contra hnot
  have hsat := reach_saturated g s hs
  unfold stepR at hsat
  have hbatch : g.nodes.dedup.filter
      (fun x => decide (x ∉ reachSet g s) &&
        (reachSet g s).any (fun m => adjB g m x)) = [] := by
    have hlen := congrArg List.length hsat
    rw [List.length_append] at hlen
    exact List.eq_nil_of_length_eq_zero (by omega)
  rw [List.filter_eq_nil_iff] at hbatch
  refine hbatch n (List.mem_dedup.mpr hn) ?_
  rw [Bool.and_eq_true, decide_eq_true_eq, List.any_eq_true]
  exact ⟨hnot, hex⟩

theorem reach_complete (g : Graph) (s t : Node) (hWF : Graph.WF g)
    (hs : s ∈ g.nodes) (h : Relation.ReflTransGen (adjR g) s t) :
    t ∈ reachSet g s := by
  induction h with
  | refl => exact start_mem_reach g s _
  | @tail b c hab hbc ih =>
    have hc : c ∈ g.nodes := by
      unfold adjR adjB at hbc
      rw [List.any_eq_true] at hbc
      obtain ⟨e, he, hp⟩ := hbc
      rw [decide_eq_true_eq] at hp
      rcases hp with ⟨h1, h2⟩ | ⟨h1, h2⟩
      · exact h2 ▸ (hWF e he).2
      · exact h1 ▸ (hWF e he).1
    exact reach_closed g s hs c hc ⟨b, ih, hbc⟩

theorem nxHasPath_iff (g : Graph) (hWF : Graph.WF g) (s t : Node)
    (hs : s ∈ g.nodes) :
    nxHasPath g s t = true ↔ Relation.ReflTransGen (adjR g) s t := by
  unfold nxHasPath
  rw [decide_eq_true_eq]
  constructor
  · intro ht
    exact reach_sound g s _ t ht
  · intro h
    exact reach_complete g s t hWF hs h

theorem pingGuard_iff (g : Graph) (hWF : Graph.WF g) (s d : String) :
    pingGuard g s d = true ↔ PathEx g (.host s) (.host d) := by
  unfold pingGuard hasNodeB PathEx
  simp only [Bool.and_eq_true, decide_eq_true_eq]
  constructor
  · rintro ⟨⟨h1, h2⟩, h3⟩
    exact ⟨h1, h2, (nxHasPath_iff g hWF _ _ h1).mp h3⟩
  · rintro ⟨h1, h2, h3⟩
    exact ⟨⟨h1, h2⟩, (nxHasPath_iff g hWF _ _ h1).mpr h3⟩

/-- C6: `pingall` counts an ordered pair of distinct hosts as successful
exactly when an undirected path between them exists in the current graph,
and reports a packet loss of `100 * (1 - successful / total)` with
`total = |hosts| * (|hosts| - 1)`, reporting `0` when `|hosts| < 2`.  The
graph hypothesis is the networkx invariant that every edge's endpoints are
nodes. -/
theorem pingall_spec (g : Graph) (hosts : List String) (hWF : Graph.WF g) :
    (pingall g hosts).total = hosts.length * (hosts.length - 1) ∧
    (∀ s d : String,
      (decide (s ≠ d) && pingGuard g s d) = true ↔
        s ≠ d ∧ PathEx g (.host s) (.host d)) ∧
    (pingall g hosts).loss =
      (if hosts.length < 2 then 0
       else 100 * (1 - ((pingall g hosts).success : ℚ) /
         ((pingall g hosts).total : ℚ))) := by
  have hlen : (List.insertionSort strLe hosts).length = hosts.length :=
    (List.perm_insertionSort strLe hosts).length_eq
  refine ⟨?_, ?_, ?_⟩
  · simp only [pingall]
    rw [hlen]
  · intro s d
    rw [Bool.and_eq_true, decide_eq_true_eq]
    exact and_congr Iff.rfl (pingGuard_iff g hWF s d)
  · simp only [pingall, hlen]
    by_cases hn : hosts.length < 2
    · have htz : hosts.length * (hosts.length - 1) = 0 := by
        have h01 : hosts.length = 0 ∨ hosts.length = 1 := by omega
        rcases h01 with h | h <;> rw [h]
      rw [htz]
      simp [hn]
    · have htp : 0 < hosts.length * (hosts.length - 1) := by
        rcases Nat.lt_or_ge hosts.length 2 with h | h
        · exact absurd h hn
        · have h1 : 0 < hosts.length := by omega
          have h2 : 0 < hosts.length - 1 := by omega
          exact Nat.mul_pos h1 h2
      rw [if_pos htp, if_neg hn]
      ring

/-- C6 witness: the two-host, one-link scenario graph. -/
theorem pingall_spec_witness :
    (pingall (rebuildGraph [1, 2] [((1, some 1), (2, some 1))]
        [⟨"h1", some "m1", 1, 3⟩, ⟨"h2", some "m2", 2, 3⟩]) ["h1", "h2"]).loss =
      (if (["h1", "h2"] : List String).length < 2 then 0
       else 100 * (1 - ((pingall (rebuildGraph [1, 2] [((1, some 1), (2, some 1))]
           [⟨"h1", some "m1", 1, 3⟩, ⟨"h2", some "m2", 2, 3⟩])
           ["h1", "h2"]).success : ℚ) /
         ((pingall (rebuildGraph [1, 2] [((1, some 1), (2, some 1))]
           [⟨"h1", some "m1", 1, 3⟩, ⟨"h2", some "m2", 2, 3⟩])
           ["h1", "h2"]).total : ℚ))) :=
  (pingall_spec (rebuildGraph [1, 2] [((1, some 1), (2, some 1))]
    [⟨"h1", some "m1", 1, 3⟩, ⟨"h2", some "m2", 2, 3⟩]) ["h1", "h2"]
    (by decide)).2.2

/-! ### Concrete sanity checks of the embedding -/

example :
    (pingall (rebuildGraph [1, 2] [((1, some 1), (2, some 1))]
      [⟨"h1", some "m1", 1, 3⟩, ⟨"h2", some "m2", 2, 3⟩]) ["h1", "h2"]).success = 2 := by
  decide

example :
    (pingall (rebuildGraph [1, 2]
      (([((1, some 1), (2, some 1))] : List LinkRec).filter
        (fun l => !idSetEqB l.1.1 l.2.1 1 2))
      [⟨"h1", some "m1", 1, 3⟩, ⟨"h2", some "m2", 2, 3⟩]) ["h1", "h2"]).success = 0 := by
  decide

example :
    initialize_host_mapping_dyn
      [.rawDict ⟨1, 1⟩ ⟨2, 1⟩, .rawDict ⟨2, 1⟩ ⟨1, 1⟩]
      [⟨"m1", 1, 3⟩, ⟨"m2", 2, 3⟩] =
    .ok [⟨"h1", "m1", 1, 3⟩, ⟨"h2", "m2", 2, 3⟩] := by
  rfl

example :
    (add_link Graph.empty "h9" "1" [1] [] [] [] [⟨"h1", some "m", 1, 3⟩]).result =
      .notConnected := by
  decide

example :
    (add_link Graph.empty "xy" "1" [1] [] [] [] []).result = .invalidInput := by
  decide

end SDN
